import Mathlib

/-!
Verification of the loan-application demo (`src/script.js`).

JavaScript strings are modelled as `List Char`; JavaScript numbers are
modelled as `ℤ`/`ℕ` where the code manipulates integers and as `ℚ` for the
EMI computation (exact arithmetic in place of IEEE floats).  Each definition
below is a direct translation of the correspondingly named function of
`script.js`; comments record the line-level correspondence.
-/

namespace Loan

/-- Characters matched by the JavaScript regex class `\s`
(ECMAScript WhiteSpace ∪ LineTerminator). -/
def jsWhitespace (c : Char) : Bool :=
  c = ' ' || c = '\t' || c = '\n' || c = '\r' || c = '\x0b' || c = '\x0c' ||
  c = '\u00a0' || c = '\u1680' || ('\u2000' ≤ c && c ≤ '\u200a') ||
  c = '\u2028' || c = '\u2029' || c = '\u202f' || c = '\u205f' ||
  c = '\u3000' || c = '\ufeff'

/-- The characters of a Lean string literal, used to transcribe the string
literals of the JavaScript source. -/
def str (s : String) : List Char :=
  s.data

/-- ASCII letters, the regex class `[A-Za-z]`. -/
def isAsciiLetter (c : Char) : Bool :=
  ('A' ≤ c && c ≤ 'Z') || ('a' ≤ c && c ≤ 'z')

/-- `String.prototype.trim()`: remove leading and trailing whitespace. -/
def trimChars (l : List Char) : List Char :=
  ((l.dropWhile jsWhitespace).reverse.dropWhile jsWhitespace).reverse

/-- Helper for `wordsOf`: accumulates the current word (reversed) while
scanning; whitespace ends the current word, runs of whitespace produce no
empty words. -/
def wordsAux : List Char → List Char → List (List Char)
  | [], cur => if cur.isEmpty then [] else [cur.reverse]
  | c :: rest, cur =>
    if jsWhitespace c then
      if cur.isEmpty then wordsAux rest [] else cur.reverse :: wordsAux rest []
    else wordsAux rest (c :: cur)

/-- The maximal whitespace-free runs of `l`, in order ("splitting on runs of
whitespace"). -/
def wordsOf (l : List Char) : List (List Char) :=
  wordsAux l []

/-- `String.prototype.split(/\s+/)` as applied in the source, i.e. on an
already-trimmed string: the empty string yields `[""]` (JavaScript returns a
one-element array holding the empty string), and a non-empty trimmed string
yields its maximal whitespace-free runs. -/
def jsSplitWs (l : List Char) : List (List Char) :=
  if l.isEmpty then [[]] else wordsAux l []

/-- `script.js` lines 31-36, `isValidFullName`:
`if (!/^[A-Za-z\s]+$/.test(name)) return false;` — the anchored regex holds
iff the string is non-empty and every character is a letter or whitespace;
then `const parts = name.trim().split(/\s+/);`
`if (parts.length < 2) return false;`
`return parts.every(part => part.length >= 4);`. -/
def isValidFullName (name : List Char) : Bool :=
  if !(!name.isEmpty && name.all (fun c => isAsciiLetter c || jsWhitespace c)) then false
  else
    let parts := jsSplitWs (trimChars name)
    if parts.length < 2 then false
    else parts.all (fun part => decide (4 ≤ part.length))

/-- `script.js` lines 43-46, `isValidAmount`:
`if (!/^\d+$/.test(amountStr)) return false;` — the anchored regex holds iff
the string is non-empty and every character is a decimal digit;
`return amountStr.length <= 9;`. -/
def isValidAmount (amountStr : List Char) : Bool :=
  if !(!amountStr.isEmpty && amountStr.all Char.isDigit) then false
  else decide (amountStr.length ≤ 9)

/-- The regex class `[^\s@]` of `isValidEmail`. -/
def isEmailChar (c : Char) : Bool :=
  !jsWhitespace c && c != '@'

/-- `script.js` lines 12-14, `isValidEmail`:
`return /^[^\s@]+@[^\s@]+\.[^\s@]+$/.test(email);`.
The anchored regex matches iff the string decomposes as
`A ++ '@' ++ B ++ '.' ++ C` with `A`, `B`, `C` non-empty strings of `[^\s@]`
characters.  Since `[^\s@]` excludes `'@'`, `A` is forced to be the maximal
`[^\s@]`-prefix and the `'@'` after it the only `'@'`; the position `j` of
the `'.'` splitting `B` from `C` is searched for explicitly. -/
def isValidEmail (email : List Char) : Bool :=
  match email.dropWhile isEmailChar with
  | '@' :: rest =>
    !(email.takeWhile isEmailChar).isEmpty &&
    (List.range rest.length).any (fun j =>
      decide (1 ≤ j) && rest.getD j ' ' == '.' &&
      (rest.take j).all isEmailChar &&
      decide (j + 1 < rest.length) &&
      (rest.drop (j + 1)).all isEmailChar)
  | _ => false

/-- The pattern asserted by the specification for `isValidEmail`, transcribed
from its words: one-or-more non-space/non-`@` characters, a literal `@`,
one-or-more non-space/non-`@` characters, a literal `.`, then one-or-more
NON-SPACE characters (the final segment is allowed to contain `@`). -/
def emailSpecPattern (email : List Char) : Bool :=
  match email.dropWhile isEmailChar with
  | '@' :: rest =>
    !(email.takeWhile isEmailChar).isEmpty &&
    (List.range rest.length).any (fun j =>
      decide (1 ≤ j) && rest.getD j ' ' == '.' &&
      (rest.take j).all isEmailChar &&
      decide (j + 1 < rest.length) &&
      (rest.drop (j + 1)).all (fun c => !jsWhitespace c))
  | _ => false

/-- The amended pattern: as `emailSpecPattern`, but the final segment also
excludes `@`, exactly as the character class `[^\s@]` of the source regex
does. -/
def emailPatternAmended (email : List Char) : Bool :=
  match email.dropWhile isEmailChar with
  | '@' :: rest =>
    !(email.takeWhile isEmailChar).isEmpty &&
    (List.range rest.length).any (fun j =>
      decide (1 ≤ j) && rest.getD j ' ' == '.' &&
      (rest.take j).all isEmailChar &&
      decide (j + 1 < rest.length) &&
      (rest.drop (j + 1)).all isEmailChar)
  | _ => false

/-- The `ones` lookup table of `numberToWordsIndian` (`script.js` lines
57-58); index 0 holds the empty string. -/
def onesTable : List (List Char) :=
  [str "", str "One", str "Two", str "Three", str "Four", str "Five",
   str "Six", str "Seven", str "Eight", str "Nine", str "Ten",
   str "Eleven", str "Twelve", str "Thirteen", str "Fourteen", str "Fifteen",
   str "Sixteen", str "Seventeen", str "Eighteen", str "Nineteen"]

/-- The `tens` lookup table (`script.js` line 59); indices 0 and 1 hold the
empty string. -/
def tensTable : List (List Char) :=
  [str "", str "", str "Twenty", str "Thirty", str "Forty", str "Fifty",
   str "Sixty", str "Seventy", str "Eighty", str "Ninety"]

/-- `ones[i]` with JavaScript out-of-bounds semantics: an index past the end
of the array yields `undefined`, which string concatenation coerces to the
text "undefined". -/
def getOnes (i : ℕ) : List Char :=
  onesTable.getD i (str "undefined")

/-- `tens[i]` with the same JavaScript out-of-bounds semantics. -/
def getTens (i : ℕ) : List Char :=
  tensTable.getD i (str "undefined")

/-- `script.js` lines 61-66, `twoDigitToWords`:
`if (n < 20) return ones[n];`
`const tenPart = Math.floor(n / 10); const onePart = n % 10;`
`return tens[tenPart] + (onePart ? ' ' + ones[onePart] : '');`. -/
def twoDigitToWords (n : ℕ) : List Char :=
  if n < 20 then getOnes n
  else
    let tenPart := n / 10
    let onePart := n % 10
    getTens tenPart ++ (if onePart ≠ 0 then ' ' :: getOnes onePart else [])

/-- `script.js` lines 68-75, `threeDigitToWords`:
`const hundred = Math.floor(n / 100); const rest = n % 100;`
`let res = '';`
`if (hundred) res += ones[hundred] + ' Hundred';`
`if (rest) res += (res ? ' ' : '') + twoDigitToWords(rest);`
`return res;`. -/
def threeDigitToWords (n : ℕ) : List Char :=
  let hundred := n / 100
  let rest := n % 100
  let res := if hundred ≠ 0 then getOnes hundred ++ str " Hundred" else []
  if rest ≠ 0 then res ++ (if res ≠ [] then [' '] else []) ++ twoDigitToWords rest
  else res

/-- The accumulation idiom `result += (result ? ' ' : '') + piece` used for
each magnitude group in `script.js` lines 87-90, guarded by the group value
being non-zero.  (For the first group, line 87, the source writes
`result += threeDigitToWords(crore) + ' Crore'` without the separator
expression; `result` is still the empty string there, so the two forms
agree.) -/
def appendGroup (result : List Char) (g : ℕ) (piece : List Char) : List Char :=
  if g ≠ 0 then result ++ (if result ≠ [] then [' '] else []) ++ piece
  else result

/-- `script.js` lines 77-93, the body of `numberToWordsIndian` after the zero
and negative cases: group decomposition by repeated division (lines 79-85),
group concatenation (lines 87-90), and `result += ' Rupees'; return
result.trim() + '.';` (lines 92-93). -/
def numberToWordsCore (num : ℕ) : List Char :=
  let crore := num / 10000000
  let num1 := num % 10000000
  let lakh := num1 / 100000
  let num2 := num1 % 100000
  let thousand := num2 / 1000
  let hundreds := num2 % 1000
  let r1 := appendGroup [] crore (threeDigitToWords crore ++ str " Crore")
  let r2 := appendGroup r1 lakh (threeDigitToWords lakh ++ str " Lakh")
  let r3 := appendGroup r2 thousand (threeDigitToWords thousand ++ str " Thousand")
  let r4 := appendGroup r3 hundreds (threeDigitToWords hundreds)
  trimChars (r4 ++ str " Rupees") ++ str "."

/-- `script.js` lines 53-94, `numberToWordsIndian`:
`if (num === 0) return 'Zero Rupees';`
`if (num < 0) return 'Minus ' + numberToWordsIndian(Math.abs(num));`
then the decomposition body.  For negative `num` the recursive call receives
the positive value `|num|`, which falls through to the decomposition body;
that single recursion step is inlined here. -/
def numberToWordsIndian (num : ℤ) : List Char :=
  if num = 0 then str "Zero Rupees"
  else if num < 0 then str "Minus " ++ numberToWordsCore num.natAbs
  else numberToWordsCore num.toNat

/-- `script.js` lines 103-110, `calculateEMI`, with JavaScript floats
modelled as exact rationals and the tenure in whole years:
`const r = annualRate / 100 / 12;`
`const n = tenureYears * 12;`
`if (r === 0) return P / n;`
`const numerator = P * r * Math.pow(1 + r, n);`
`const denominator = Math.pow(1 + r, n) - 1;`
`return numerator / denominator;`.
(The source declares default arguments `annualRate = 8.5`,
`tenureYears = 15`; defaults are a call-site convenience and are not
modelled.) -/
def calculateEMI (P annualRate : ℚ) (tenureYears : ℕ) : ℚ :=
  let r : ℚ := annualRate / 100 / 12
  let n : ℕ := tenureYears * 12
  if r = 0 then P / (n : ℚ)
  else
    let numerator := P * r * (1 + r) ^ n
    let denominator := (1 + r) ^ n - 1
    numerator / denominator

/-- The EMI computation as the specification words it (section 4.3):
monthly rate `annualRate / 100 / 12`, total months `tenureYears × 12`,
straight-line division when the monthly rate is exactly zero, otherwise the
standard amortizing-loan installment formula. -/
def emiSpecFormula (P annualRate : ℚ) (tenureYears : ℕ) : ℚ :=
  let monthlyRate := annualRate / 100 / 12
  let totalMonths := tenureYears * 12
  if monthlyRate = 0 then P / (totalMonths : ℚ)
  else P * monthlyRate * (1 + monthlyRate) ^ totalMonths /
    ((1 + monthlyRate) ^ totalMonths - 1)

/-- Phase of the confirmation page after zero or more clicks of the
validate button: the OTP block is shown (`active`) or a terminal result is
shown (`succeeded` / `failed`, after which the OTP block is hidden and no
further submissions are possible). -/
inductive Phase
  | active
  | succeeded
  | failed
deriving DecidableEq, Repr

/-- The mutable state of the confirmation page (`script.js` lines 251-252):
the `attempts` counter together with the displayed phase. -/
structure OtpState where
  attempts : ℕ
  phase : Phase
deriving DecidableEq, Repr

/-- `script.js` line 252: `const maxAttempts = 3;`. -/
def maxAttempts : ℕ := 3

/-- The anchored regex `/^\d{4}$/` of `script.js` line 261: exactly four
decimal digits. -/
def isFourDigits (g : List Char) : Bool :=
  g.length == 4 && g.all Char.isDigit

/-- The state of the page when the confirmation view is first shown:
`attempts = 0`, OTP block visible (`script.js` line 251). -/
def otpInit : OtpState :=
  ⟨0, Phase.active⟩

/-- One click of the validate button (`script.js` lines 256-292):
`const entered = (otpInput.value || '').trim();`
`if (!/^\d{4}$/.test(entered)) { ...error...; return; }` — state unchanged;
`attempts++;`
`if (entered === sessionStorage.getItem('loan_otp')) { ...success...}`
`else if (attempts >= maxAttempts) { ...failure... } else { ...retry... }`.
In a terminal phase the OTP block (input and button) has been hidden
(`otpBlock.style.display = 'none'`), so no further submission can occur and
the state is unchanged. -/
def otpStep (code : List Char) (s : OtpState) (guess : List Char) : OtpState :=
  match s.phase with
  | Phase.active =>
    let entered := trimChars guess
    if !isFourDigits entered then s
    else
      let att := s.attempts + 1
      if entered = code then ⟨att, Phase.succeeded⟩
      else if att ≥ maxAttempts then ⟨att, Phase.failed⟩
      else ⟨att, Phase.active⟩
  | _ => s

/-- The state after a sequence of validate-button clicks starting from the
freshly loaded confirmation page. -/
def runOtp (code : List Char) (guesses : List (List Char)) : OtpState :=
  guesses.foldl (otpStep code) otpInit

/-- No two consecutive characters of `l` are both the space character. -/
def NoDoubleSpace (l : List Char) : Prop :=
  List.Chain' (fun c d => ¬(c = ' ' ∧ d = ' ')) l

/-- Well-formed rendered text: non-empty, first and last characters are not
whitespace, and no two consecutive spaces occur.  The trailing character is
read as the head of the reversed list. -/
def CleanText (l : List Char) : Prop :=
  l ≠ [] ∧ jsWhitespace (l.headD 'x') = false ∧
  jsWhitespace (l.reverse.headD 'x') = false ∧ NoDoubleSpace l

instance instDecNoDoubleSpace : (l : List Char) → Decidable (NoDoubleSpace l)
  | [] => isTrue List.chain'_nil
  | [c] => isTrue (List.chain'_singleton c)
  | c :: d :: rest =>
    haveI := instDecNoDoubleSpace (d :: rest)
    decidable_of_iff (¬(c = ' ' ∧ d = ' ') ∧ NoDoubleSpace (d :: rest))
      (@List.chain'_cons Char (fun a b => ¬(a = ' ' ∧ b = ' ')) c d rest).symm

instance (l : List Char) : Decidable (CleanText l) :=
  inferInstanceAs (Decidable (l ≠ [] ∧ jsWhitespace (l.headD 'x') = false ∧
    jsWhitespace (l.reverse.headD 'x') = false ∧ NoDoubleSpace l))

/-! ## Helper lemmas -/

/-- The head default of an append is read from the left part when it is
non-empty. -/
theorem headD_append_left (a b : List Char) (d : Char) (ha : a ≠ []) :
    (a ++ b).headD d = a.headD d := by
  cases a with
  | nil => exact absurd rfl ha
  | cons x t => rfl

/-- Joining two clean texts with a single space yields a clean text. -/
theorem cleanText_append_space (a b : List Char)
    (ha : CleanText a) (hb : CleanText b) : CleanText (a ++ ' ' :: b) := by
  obtain ⟨hane, hah, hat, hac⟩ := ha
  obtain ⟨hbne, hbh, hbt, hbc⟩ := hb
  have harev : a.reverse ≠ [] := by
    simpa [List.reverse_eq_nil_iff] using hane
  have hbrev : b.reverse ≠ [] := by
    simpa [List.reverse_eq_nil_iff] using hbne
  refine ⟨by simp [hane], ?_, ?_, ?_⟩
  · rw [headD_append_left a (' ' :: b) 'x' hane]
    exact hah
  · rw [List.reverse_append]
    have e : (' ' :: b).reverse = b.reverse ++ [' '] := by
      simp
    rw [e, List.append_assoc, headD_append_left b.reverse ([' '] ++ a.reverse) 'x' hbrev]
    exact hbt
  · rw [NoDoubleSpace, List.chain'_append]
    refine ⟨hac, ?_, ?_⟩
    · rw [List.chain'_cons']
      refine ⟨?_, hbc⟩
      intro y hy
      rintro ⟨-, hy'⟩
      obtain ⟨z, w, rfl⟩ := List.exists_cons_of_ne_nil hbne
      simp only [List.head?_cons, Option.mem_def, Option.some.injEq] at hy
      subst hy
      subst hy'
      simp [jsWhitespace] at hbh
    · intro x hx y hy
      rintro ⟨hx', -⟩
      subst hx'
      have : a.getLast? = a.reverse.head? := (List.head?_reverse a).symm
      rw [this] at hx
      obtain ⟨z, w, hzw⟩ := List.exists_cons_of_ne_nil harev
      rw [hzw] at hx
      simp only [List.head?_cons, Option.mem_def, Option.some.injEq] at hx
      rw [hzw] at hat
      simp only [List.headD_cons] at hat
      rw [hx] at hat
      simp [jsWhitespace] at hat

/-- Appending a single non-whitespace character keeps a text clean. -/
theorem cleanText_append_char (a : List Char) (c : Char)
    (ha : CleanText a) (hc : jsWhitespace c = false) : CleanText (a ++ [c]) := by
  obtain ⟨hane, hah, hat, hac⟩ := ha
  refine ⟨by simp [hane], ?_, ?_, ?_⟩
  · rw [headD_append_left a [c] 'x' hane]
    exact hah
  · rw [List.reverse_append]
    simpa using hc
  · rw [NoDoubleSpace, List.chain'_append]
    refine ⟨hac, by simp, ?_⟩
    intro x hx y hy
    simp only [List.head?_cons, Option.mem_def, Option.some.injEq] at hy
    subst hy
    rintro ⟨-, hy'⟩
    subst hy'
    simp [jsWhitespace] at hc

/-- `trimChars` is the identity on clean text. -/
theorem trimChars_eq_self (l : List Char) (h : CleanText l) : trimChars l = l := by
  obtain ⟨hne, hh, ht, -⟩ := h
  have harev : l.reverse ≠ [] := by
    simpa [List.reverse_eq_nil_iff] using hne
  obtain ⟨x, t, rfl⟩ := List.exists_cons_of_ne_nil hne
  simp only [List.headD_cons] at hh
  rw [trimChars, List.dropWhile_cons, hh]
  simp only [Bool.false_eq_true, if_false]
  obtain ⟨z, w, hzw⟩ := List.exists_cons_of_ne_nil harev
  rw [hzw] at ht ⊢
  simp only [List.headD_cons] at ht
  rw [List.dropWhile_cons, ht]
  simp only [Bool.false_eq_true, if_false]
  rw [← hzw, List.reverse_reverse]

/-- Single-step preservation of the attempts invariant: the counter stays at
most `maxAttempts`, and while the OTP block is still shown it stays strictly
below `maxAttempts`. -/
theorem otpStep_inv (code g : List Char) (s : OtpState)
    (h1 : s.attempts ≤ maxAttempts)
    (h2 : s.phase = Phase.active → s.attempts < maxAttempts) :
    (otpStep code s g).attempts ≤ maxAttempts ∧
    ((otpStep code s g).phase = Phase.active →
      (otpStep code s g).attempts < maxAttempts) := by
  rcases s with ⟨att, ph⟩
  cases ph
  case succeeded => exact ⟨h1, h2⟩
  case failed => exact ⟨h1, h2⟩
  case active =>
    have hlt : att < 3 := h2 rfl
    simp only [otpStep, maxAttempts]
    by_cases hwf : isFourDigits (trimChars g) = true
    · simp only [hwf, Bool.not_true, Bool.false_eq_true, if_false]
      by_cases heq : trimChars g = code
      · simp only [if_pos heq]
        exact ⟨show att + 1 ≤ 3 by omega, fun h => by simp at h⟩
      · simp only [if_neg heq]
        by_cases hmax : att + 1 ≥ 3
        · simp only [if_pos hmax]
          exact ⟨show att + 1 ≤ 3 by omega, fun h => by simp at h⟩
        · simp only [if_neg hmax]
          exact ⟨show att + 1 ≤ 3 by omega, fun _ => show att + 1 < 3 by omega⟩
    · have hwf' : isFourDigits (trimChars g) = false := by
        cases hq : isFourDigits (trimChars g) with
        | false => rfl
        | true => exact absurd hq hwf
      simp only [hwf', Bool.not_false, if_true]
      exact ⟨by omega, fun _ => by omega⟩

/-- The attempts invariant is preserved along any fold of `otpStep`. -/
theorem foldl_otp_inv (code : List Char) :
    ∀ (gs : List (List Char)) (s : OtpState),
      s.attempts ≤ maxAttempts → (s.phase = Phase.active → s.attempts < maxAttempts) →
      (gs.foldl (otpStep code) s).attempts ≤ maxAttempts := by
  intro gs
  induction gs with
  | nil => intro s h1 _; simpa using h1
  | cons g gs ih =>
    intro s h1 h2
    simp only [List.foldl_cons]
    exact ih _ (otpStep_inv code g s h1 h2).1 (otpStep_inv code g s h1 h2).2

/-- Every non-empty `ones` entry (and the out-of-bounds text "undefined")
is clean. -/
theorem getOnes_clean (i : ℕ) (h : 1 ≤ i) : CleanText (getOnes i) := by
  by_cases h20 : i < 20
  · interval_cases i <;> decide
  · have hlen : onesTable.length ≤ i := by
      have : onesTable.length = 20 := by decide
      omega
    rw [getOnes, List.getD_eq_default _ _ hlen]
    decide

/-- Every `tens` entry from index 2 on (and the out-of-bounds text
"undefined") is clean. -/
theorem getTens_clean (i : ℕ) (h : 2 ≤ i) : CleanText (getTens i) := by
  by_cases h10 : i < 10
  · interval_cases i <;> decide
  · have hlen : tensTable.length ≤ i := by
      have : tensTable.length = 10 := by decide
      omega
    rw [getTens, List.getD_eq_default _ _ hlen]
    decide

/-- `twoDigitToWords` renders every non-zero value as clean text. -/
theorem twoDigitToWords_clean (n : ℕ) (h : 1 ≤ n) :
    CleanText (twoDigitToWords n) := by
  by_cases h20 : n < 20
  · rw [twoDigitToWords, if_pos h20]
    exact getOnes_clean n h
  · rw [twoDigitToWords, if_neg h20]
    have hten : CleanText (getTens (n / 10)) := getTens_clean (n / 10) (by omega)
    by_cases ho : n % 10 = 0
    · simp only [ho, ne_eq, not_true_eq_false, if_false, List.append_nil]
      exact hten
    · simp only [ne_eq, ho, not_false_eq_true, if_true]
      exact cleanText_append_space _ _ hten (getOnes_clean (n % 10) (by omega))

/-- `threeDigitToWords` renders every non-zero value as clean text. -/
theorem threeDigitToWords_clean (n : ℕ) (h : 1 ≤ n) :
    CleanText (threeDigitToWords n) := by
  have hHundred : CleanText (str "Hundred") := by decide
  by_cases hh : n / 100 = 0
  · have hr : n % 100 ≠ 0 := by omega
    simp only [threeDigitToWords, hh, ne_eq, not_true_eq_false, if_false, hr,
      not_false_eq_true, if_true, List.nil_append]
    exact twoDigitToWords_clean (n % 100) (by omega)
  · have hres : CleanText (getOnes (n / 100) ++ str " Hundred") := by
      have e : str " Hundred" = ' ' :: str "Hundred" := rfl
      rw [e]
      exact cleanText_append_space _ _ (getOnes_clean (n / 100) (by omega)) hHundred
    by_cases hr : n % 100 = 0
    · simp only [threeDigitToWords, hh, ne_eq, not_false_eq_true, if_true, hr,
        not_true_eq_false, if_false]
      exact hres
    · simp only [threeDigitToWords, hh, ne_eq, not_false_eq_true, if_true, hr]
      rw [if_pos hres.1]
      have e : getOnes (n / 100) ++ str " Hundred" ++ [' '] ++ twoDigitToWords (n % 100) =
          (getOnes (n / 100) ++ str " Hundred") ++ ' ' :: twoDigitToWords (n % 100) := by
        simp [List.append_assoc]
      rw [e]
      exact cleanText_append_space _ _ hres (twoDigitToWords_clean (n % 100) (by omega))

/-- `appendGroup` preserves the invariant "empty or clean", and produces a
non-empty result as soon as the accumulator is non-empty or the group is
rendered. -/
theorem appendGroup_clean (r piece : List Char) (g : ℕ)
    (hr : r = [] ∨ CleanText r) (hp : g ≠ 0 → CleanText piece) :
    (appendGroup r g piece = [] ∨ CleanText (appendGroup r g piece)) ∧
    ((r ≠ [] ∨ g ≠ 0) → appendGroup r g piece ≠ []) := by
  by_cases hg : g = 0
  · rw [appendGroup, if_neg (by simpa using hg)]
    refine ⟨hr, ?_⟩
    rintro (h | h)
    · exact h
    · exact absurd hg h
  · have hpc := hp hg
    rw [appendGroup, if_pos hg]
    rcases hr with rfl | hrc
    · simp only [ne_eq, not_true_eq_false, if_false, List.nil_append]
      exact ⟨Or.inr hpc, fun _ => hpc.1⟩
    · rw [if_pos hrc.1]
      have e : r ++ [' '] ++ piece = r ++ ' ' :: piece := by
        simp [List.append_assoc]
      rw [e]
      have := cleanText_append_space _ _ hrc hpc
      exact ⟨Or.inr this, fun _ => this.1⟩

/-- Final assembly of `numberToWordsCore`: appending " Rupees", trimming and
appending the period keeps a clean accumulator clean and produces a string
ending in "Rupees.". -/
theorem final_assembly (r4 : List Char) (h : CleanText r4) :
    CleanText (trimChars (r4 ++ str " Rupees") ++ str ".") ∧
    ∃ t, trimChars (r4 ++ str " Rupees") ++ str "." = t ++ str "Rupees." := by
  have hRupees : CleanText (str "Rupees") := by decide
  have e : str " Rupees" = ' ' :: str "Rupees" := rfl
  rw [e]
  have hs := cleanText_append_space _ _ h hRupees
  rw [trimChars_eq_self _ hs]
  constructor
  · have edot : str "." = ['.'] := rfl
    rw [edot]
    exact cleanText_append_char _ '.' hs (by decide)
  · refine ⟨r4 ++ [' '], ?_⟩
    have e2 : str "Rupees." = str "Rupees" ++ str "." := rfl
    rw [e2]
    simp [List.append_assoc]

/-- The body of `numberToWordsCore` for a positive argument yields clean
text ending in "Rupees.". -/
theorem core_clean_suffix (m : ℕ) (hm : 1 ≤ m) :
    CleanText (numberToWordsCore m) ∧
    ∃ t, numberToWordsCore m = t ++ str "Rupees." := by
  have hnz : m / 10000000 ≠ 0 ∨ m % 10000000 / 100000 ≠ 0 ∨
      m % 10000000 % 100000 / 1000 ≠ 0 ∨ m % 10000000 % 100000 % 1000 ≠ 0 := by
    omega
  have hp : ∀ g : ℕ, ∀ unit : List Char, CleanText unit → g ≠ 0 →
      CleanText (threeDigitToWords g ++ ' ' :: unit) := by
    intro g unit hu hg
    exact cleanText_append_space _ _ (threeDigitToWords_clean g (by omega)) hu
  have hdef : numberToWordsCore m =
      trimChars (appendGroup (appendGroup (appendGroup (appendGroup []
        (m / 10000000) (threeDigitToWords (m / 10000000) ++ str " Crore"))
        (m % 10000000 / 100000)
        (threeDigitToWords (m % 10000000 / 100000) ++ str " Lakh"))
        (m % 10000000 % 100000 / 1000)
        (threeDigitToWords (m % 10000000 % 100000 / 1000) ++ str " Thousand"))
        (m % 10000000 % 100000 % 1000)
        (threeDigitToWords (m % 10000000 % 100000 % 1000)) ++ str " Rupees") ++
      str "." := rfl
  have c1 := appendGroup_clean [] (threeDigitToWords (m / 10000000) ++ str " Crore")
    (m / 10000000) (Or.inl rfl)
    (fun hg => hp _ (str "Crore") (by decide) hg)
  have c2 := appendGroup_clean _ (threeDigitToWords (m % 10000000 / 100000) ++ str " Lakh")
    (m % 10000000 / 100000) c1.1
    (fun hg => hp _ (str "Lakh") (by decide) hg)
  have c3 := appendGroup_clean _
    (threeDigitToWords (m % 10000000 % 100000 / 1000) ++ str " Thousand")
    (m % 10000000 % 100000 / 1000) c2.1
    (fun hg => hp _ (str "Thousand") (by decide) hg)
  have c4 := appendGroup_clean _ (threeDigitToWords (m % 10000000 % 100000 % 1000))
    (m % 10000000 % 100000 % 1000) c3.1
    (fun hg => threeDigitToWords_clean _ (by omega))
  have hr4ne : appendGroup (appendGroup (appendGroup (appendGroup []
      (m / 10000000) (threeDigitToWords (m / 10000000) ++ str " Crore"))
      (m % 10000000 / 100000)
      (threeDigitToWords (m % 10000000 / 100000) ++ str " Lakh"))
      (m % 10000000 % 100000 / 1000)
      (threeDigitToWords (m % 10000000 % 100000 / 1000) ++ str " Thousand"))
      (m % 10000000 % 100000 % 1000)
      (threeDigitToWords (m % 10000000 % 100000 % 1000)) ≠ [] := by
    rcases hnz with h | h | h | h
    · exact c4.2 (Or.inl (c3.2 (Or.inl (c2.2 (Or.inl (c1.2 (Or.inr h)))))))
    · exact c4.2 (Or.inl (c3.2 (Or.inl (c2.2 (Or.inr h)))))
    · exact c4.2 (Or.inl (c3.2 (Or.inr h)))
    · exact c4.2 (Or.inr h)
  have hr4clean : CleanText (appendGroup (appendGroup (appendGroup (appendGroup []
      (m / 10000000) (threeDigitToWords (m / 10000000) ++ str " Crore"))
      (m % 10000000 / 100000)
      (threeDigitToWords (m % 10000000 / 100000) ++ str " Lakh"))
      (m % 10000000 % 100000 / 1000)
      (threeDigitToWords (m % 10000000 % 100000 / 1000) ++ str " Thousand"))
      (m % 10000000 % 100000 % 1000)
      (threeDigitToWords (m % 10000000 % 100000 % 1000))) := by
    rcases c4.1 with h | h
    · exact absurd h hr4ne
    · exact h
  rw [hdef]
  exact final_assembly _ hr4clean

/-! ## Claim theorems -/

/-- C1 counterexample: the string "a@b.c@d" satisfies the pattern stated by
the claim (its final segment "c@d" only has to avoid whitespace), yet
`isValidEmail` rejects it because the regex class `[^\s@]` of the final
segment also excludes `@`.  So the biconditional claimed for every string
fails at this input. -/
theorem email_claim_counterexample :
    isValidEmail (str "a@b.c@d") = false ∧
    emailSpecPattern (str "a@b.c@d") = true :=
  ⟨by decide, by decide⟩

/-- C1 (amended): for every string `s`, `isValidEmail s` is true iff `s`
consists of one-or-more characters that are neither whitespace nor `@`, a
literal `@`, one-or-more characters that are neither whitespace nor `@`, a
literal `.`, and one-or-more characters that are neither whitespace nor `@`
(the final segment, like the first two, excludes `@`). -/
theorem email_matches_amended_pattern :
    ∀ email : List Char, isValidEmail email = emailPatternAmended email :=
  fun _ => rfl

/-- C4: the four concrete conversions recorded by the specification:
0 ↦ "Zero Rupees" (no period), 100000 ↦ "One Lakh Rupees.",
1234567 ↦ "Twelve Lakh Thirty Four Thousand Five Hundred Sixty Seven
Rupees.", and -50 ↦ "Minus Fifty Rupees.". -/
theorem words_concrete_values :
    numberToWordsIndian 0 = str "Zero Rupees" ∧
    numberToWordsIndian 100000 = str "One Lakh Rupees." ∧
    numberToWordsIndian 1234567 =
      str "Twelve Lakh Thirty Four Thousand Five Hundred Sixty Seven Rupees." ∧
    numberToWordsIndian (-50) = str "Minus Fifty Rupees." :=
  ⟨by decide, by decide, by decide, by decide⟩

/-- C5: `calculateEMI` computes the monthly rate `annualRate / 100 / 12` and
the month count `tenureYears * 12`, returns `P / n` when the monthly rate is
exactly zero, and otherwise the amortizing-loan installment
`P * r * (1+r)^n / ((1+r)^n - 1)`, exactly as the specification words it. -/
theorem emi_matches_spec :
    ∀ (P annualRate : ℚ) (tenureYears : ℕ),
      calculateEMI P annualRate tenureYears = emiSpecFormula P annualRate tenureYears :=
  fun _ _ _ => rfl

/-- C7: `isValidAmount s` is true iff `s` is non-empty, all its characters
are decimal digits, and its length is at most 9; with the concrete examples
"123456789" accepted, "1234567890" and "12a" rejected, and the empty string
rejected. -/
theorem amount_valid_iff :
    (∀ s : List Char,
      isValidAmount s = true ↔ s ≠ [] ∧ (∀ c ∈ s, c.isDigit = true) ∧ s.length ≤ 9) ∧
    isValidAmount (str "123456789") = true ∧
    isValidAmount (str "1234567890") = false ∧
    isValidAmount (str "12a") = false ∧
    isValidAmount (str "") = false := by
  refine ⟨fun s => ?_, by decide, by decide, by decide, by decide⟩
  by_cases hni : s = []
  · subst hni; simp [isValidAmount]
  · by_cases hall : s.all Char.isDigit = true
    · have hne : s.isEmpty = false := by
        cases s with
        | nil => exact absurd rfl hni
        | cons a t => rfl
      simp only [isValidAmount, hne, hall, Bool.not_false, Bool.and_true, Bool.not_true,
        Bool.false_eq_true, if_false, decide_eq_true_eq]
      exact ⟨fun h => ⟨hni, List.all_eq_true.mp hall, h⟩, fun h => h.2.2⟩
    · have hfl : s.all Char.isDigit = false := by
        cases h : s.all Char.isDigit with
        | false => rfl
        | true => exact absurd h hall
      simp only [isValidAmount, hfl, Bool.and_false, Bool.not_false, if_true,
        Bool.false_eq_true, false_iff]
      rintro ⟨-, hforall, -⟩
      exact hall (List.all_eq_true.mpr hforall)

/-- C8: a submitted guess that (after trimming) is not exactly four decimal
digits leaves the challenge state unchanged: the attempts counter is not
incremented and the state remains `Active a` for every `a`. -/
theorem otp_malformed_keeps_state (code guess : List Char) (a : ℕ)
    (h : isFourDigits (trimChars guess) = false) :
    otpStep code ⟨a, Phase.active⟩ guess = ⟨a, Phase.active⟩ := by
  simp [otpStep, h]

/-- Witness for C8 at a concrete input: the guess "12a" is malformed and the
state `Active 2` is unchanged. -/
theorem otp_malformed_keeps_state_witness :
    isFourDigits (trimChars (str "12a")) = false ∧
    otpStep (str "1234") ⟨2, Phase.active⟩ (str "12a") = ⟨2, Phase.active⟩ :=
  ⟨by decide, otp_malformed_keeps_state (str "1234") (str "12a") 2 (by decide)⟩

/-- C9: starting from the freshly loaded confirmation page, after any
sequence of validate-button clicks the attempts counter is at most
`maxAttempts`, and `maxAttempts` is fixed at 3 (with the counter a natural
number, so it also never drops below 0). -/
theorem otp_attempts_bounded :
    ∀ (code : List Char) (guesses : List (List Char)),
      (runOtp code guesses).attempts ≤ maxAttempts ∧ maxAttempts = 3 := by
  intro code gs
  refine ⟨?_, rfl⟩
  exact foldl_otp_inv code gs otpInit (by simp [otpInit, maxAttempts])
    (fun _ => by simp [otpInit, maxAttempts])

/-- C3: with a fixed four-digit code, a well-formed incorrect guess moves
`Active a` to `Active (a+1)` when `a+1 < maxAttempts` and to terminal
`Failed` otherwise; three consecutive wrong well-formed guesses starting at
`Active 0` pass through `Active 1`, `Active 2` and end in `Failed`; a guess
equal to the code moves every `Active a` to terminal `Succeeded`; the
terminal phases absorb further submissions. -/
theorem otp_transitions (code guess g1 g2 g3 : List Char) (a : ℕ)
    (hcode : isFourDigits code = true)
    (h1 : isFourDigits (trimChars g1) = true) (h1ne : trimChars g1 ≠ code)
    (h2 : isFourDigits (trimChars g2) = true) (h2ne : trimChars g2 ≠ code)
    (h3 : isFourDigits (trimChars g3) = true) (h3ne : trimChars g3 ≠ code) :
    (isFourDigits (trimChars guess) = true → trimChars guess ≠ code →
      otpStep code ⟨a, Phase.active⟩ guess =
        if a + 1 < maxAttempts then ⟨a + 1, Phase.active⟩ else ⟨a + 1, Phase.failed⟩) ∧
    (trimChars guess = code →
      otpStep code ⟨a, Phase.active⟩ guess = ⟨a + 1, Phase.succeeded⟩) ∧
    otpStep code ⟨0, Phase.active⟩ g1 = ⟨1, Phase.active⟩ ∧
    otpStep code (otpStep code ⟨0, Phase.active⟩ g1) g2 = ⟨2, Phase.active⟩ ∧
    otpStep code (otpStep code (otpStep code ⟨0, Phase.active⟩ g1) g2) g3 =
      ⟨3, Phase.failed⟩ ∧
    otpStep code ⟨a, Phase.succeeded⟩ guess = ⟨a, Phase.succeeded⟩ ∧
    otpStep code ⟨a, Phase.failed⟩ guess = ⟨a, Phase.failed⟩ := by
  have e1 : otpStep code ⟨0, Phase.active⟩ g1 = ⟨1, Phase.active⟩ := by
    simp [otpStep, h1, h1ne, maxAttempts]
  have e2 : otpStep code ⟨1, Phase.active⟩ g2 = ⟨2, Phase.active⟩ := by
    simp [otpStep, h2, h2ne, maxAttempts]
  have e3 : otpStep code ⟨2, Phase.active⟩ g3 = ⟨3, Phase.failed⟩ := by
    simp [otpStep, h3, h3ne, maxAttempts]
  refine ⟨?_, ?_, e1, ?_, ?_, rfl, rfl⟩
  · intro hwf hne
    simp only [otpStep, maxAttempts, hwf, Bool.not_true, Bool.false_eq_true, if_false,
      if_neg hne]
    by_cases h : a + 1 < 3
    · rw [if_pos h, if_neg (show ¬ a + 1 ≥ 3 by omega)]
    · rw [if_neg h, if_pos (show a + 1 ≥ 3 by omega)]
  · intro heq
    simp [otpStep, heq, hcode]
  · rw [e1]; exact e2
  · rw [e1, e2]; exact e3

/-- Witness for C3 at concrete inputs: code "1234", wrong guesses "1111",
"2222", "3333", correct guess "1234", starting attempts 0. -/
theorem otp_transitions_witness :
    (isFourDigits (trimChars (str "1111")) = true → trimChars (str "1111") ≠ str "1234" →
      otpStep (str "1234") ⟨0, Phase.active⟩ (str "1111") =
        if 0 + 1 < maxAttempts then ⟨0 + 1, Phase.active⟩ else ⟨0 + 1, Phase.failed⟩) ∧
    (trimChars (str "1111") = str "1234" →
      otpStep (str "1234") ⟨0, Phase.active⟩ (str "1111") = ⟨0 + 1, Phase.succeeded⟩) ∧
    otpStep (str "1234") ⟨0, Phase.active⟩ (str "1111") = ⟨1, Phase.active⟩ ∧
    otpStep (str "1234") (otpStep (str "1234") ⟨0, Phase.active⟩ (str "1111")) (str "2222") =
      ⟨2, Phase.active⟩ ∧
    otpStep (str "1234")
      (otpStep (str "1234") (otpStep (str "1234") ⟨0, Phase.active⟩ (str "1111")) (str "2222"))
      (str "3333") = ⟨3, Phase.failed⟩ ∧
    otpStep (str "1234") ⟨0, Phase.succeeded⟩ (str "1111") = ⟨0, Phase.succeeded⟩ ∧
    otpStep (str "1234") ⟨0, Phase.failed⟩ (str "1111") = ⟨0, Phase.failed⟩ :=
  otp_transitions (str "1234") (str "1111") (str "1111") (str "2222") (str "3333") 0
    (by decide) (by decide) (by decide) (by decide) (by decide) (by decide) (by decide)

/-- C6: `isValidFullName s` is true iff `s` contains only (ASCII) letters and
whitespace and, after trimming and splitting on runs of whitespace, yields
two or more words each of length at least 4; in particular "John Smith" is
accepted and "Jo Ann" is rejected. -/
theorem fullname_valid_iff :
    (∀ name : List Char,
      isValidFullName name = true ↔
        ((∀ c ∈ name, isAsciiLetter c = true ∨ jsWhitespace c = true) ∧
          2 ≤ (wordsOf (trimChars name)).length ∧
          ∀ w ∈ wordsOf (trimChars name), 4 ≤ w.length)) ∧
    isValidFullName (str "John Smith") = true ∧
    isValidFullName (str "Jo Ann") = false := by
  refine ⟨fun name => ?_, by decide, by decide⟩
  by_cases hni : name = []
  · subst hni
    simp [isValidFullName, wordsOf, wordsAux, trimChars]
  · have hne : name.isEmpty = false := by
      cases name with
      | nil => exact absurd rfl hni
      | cons a t => rfl
    by_cases hall : name.all (fun c => isAsciiLetter c || jsWhitespace c) = true
    · by_cases htr : trimChars name = []
      · have hparts : jsSplitWs (trimChars name) = [[]] := by
          rw [htr]; rfl
        have hwords : wordsOf (trimChars name) = [] := by
          rw [htr]; rfl
        simp only [isValidFullName, hne, hall, Bool.not_false, Bool.true_and, Bool.not_true,
          Bool.false_eq_true, if_false, hparts, hwords]
        simp
      · have hparts : jsSplitWs (trimChars name) = wordsOf (trimChars name) := by
          have : (trimChars name).isEmpty = false := by
            cases h : trimChars name with
            | nil => exact absurd h htr
            | cons a t => rfl
          simp [jsSplitWs, wordsOf, this]
        simp only [isValidFullName, hne, hall, Bool.not_false, Bool.true_and, Bool.not_true,
          Bool.false_eq_true, if_false, hparts]
        by_cases hlen : (wordsOf (trimChars name)).length < 2
        · simp only [if_pos hlen, Bool.false_eq_true, false_iff]
          rintro ⟨-, h2, -⟩
          omega
        · simp only [if_neg hlen, List.all_eq_true, decide_eq_true_eq]
          constructor
          · intro h
            refine ⟨?_, by omega, h⟩
            intro c hc
            have := List.all_eq_true.mp hall c hc
            rcases Bool.or_eq_true_iff.mp this with h | h
            · exact Or.inl h
            · exact Or.inr h
          · rintro ⟨-, -, h⟩
            exact h
    · have hfl : name.all (fun c => isAsciiLetter c || jsWhitespace c) = false := by
        cases h : name.all (fun c => isAsciiLetter c || jsWhitespace c) with
        | false => rfl
        | true => exact absurd h hall
      simp only [isValidFullName, hne, hfl, Bool.not_false, Bool.and_false, if_true,
        Bool.false_eq_true, false_iff]
      rintro ⟨hforall, -⟩
      apply hall
      rw [List.all_eq_true]
      intro c hc
      rcases hforall c hc with h | h
      · simp [h]
      · simp [h]

/-- C2 counterexample: at input 0 the function returns the literal
"Zero Rupees", which does not end in "Rupees." (there is no trailing
period), so the claim that the result ends in "Rupees." for every integer
input fails. -/
theorem words_zero_counterexample :
    numberToWordsIndian 0 = str "Zero Rupees" ∧
    ¬ ∃ t : List Char, numberToWordsIndian 0 = t ++ str "Rupees." := by
  refine ⟨by decide, ?_⟩
  rintro ⟨t, ht⟩
  have h0 : numberToWordsIndian 0 = str "Zero Rupees" := by decide
  rw [h0] at ht
  have h1 : (str "Zero Rupees").reverse.headD 'x' = 's' := by decide
  have h2 : ((t ++ str "Rupees.").reverse).headD 'x' = '.' := by
    rw [List.reverse_append]
    rw [headD_append_left _ _ _ (by decide : (str "Rupees.").reverse ≠ [])]
    decide
  rw [ht, h2] at h1
  exact absurd h1 (by decide)

/-- C2 (amended): for every nonzero integer input the returned string ends
in "Rupees." with a trailing period; for input 0 the returned string is the
literal "Zero Rupees" with no trailing period. -/
theorem words_nonzero_ends_rupees_period :
    (∀ n : ℤ, n ≠ 0 → ∃ t, numberToWordsIndian n = t ++ str "Rupees.") ∧
    numberToWordsIndian 0 = str "Zero Rupees" := by
  refine ⟨fun n hn => ?_, by decide⟩
  rcases lt_trichotomy n 0 with h | h | h
  · have e : numberToWordsIndian n = str "Minus " ++ numberToWordsCore n.natAbs := by
      rw [numberToWordsIndian, if_neg hn, if_pos h]
    obtain ⟨t, ht⟩ := (core_clean_suffix n.natAbs (by omega)).2
    exact ⟨str "Minus " ++ t, by rw [e, ht, List.append_assoc]⟩
  · exact absurd h hn
  · have e : numberToWordsIndian n = numberToWordsCore n.toNat := by
      rw [numberToWordsIndian, if_neg hn, if_neg (by omega : ¬ n < 0)]
    obtain ⟨t, ht⟩ := (core_clean_suffix n.toNat (by omega)).2
    exact ⟨t, by rw [e, ht]⟩

/-- Witness for the amended C2 at the concrete input -50. -/
theorem words_nonzero_ends_rupees_period_witness :
    (-50 : ℤ) ≠ 0 ∧ ∃ t, numberToWordsIndian (-50) = t ++ str "Rupees." :=
  ⟨by decide, words_nonzero_ends_rupees_period.1 (-50) (by decide)⟩

/-- C10: for every nonzero integer input the returned string is non-empty,
has no leading or trailing whitespace, and never contains two consecutive
space characters. -/
theorem words_well_spaced (n : ℤ) (hn : n ≠ 0) :
    numberToWordsIndian n ≠ [] ∧
    jsWhitespace ((numberToWordsIndian n).headD 'x') = false ∧
    jsWhitespace ((numberToWordsIndian n).reverse.headD 'x') = false ∧
    NoDoubleSpace (numberToWordsIndian n) := by
  have h : CleanText (numberToWordsIndian n) := by
    rcases lt_trichotomy n 0 with h | h | h
    · have e : numberToWordsIndian n = str "Minus " ++ numberToWordsCore n.natAbs := by
        rw [numberToWordsIndian, if_neg hn, if_pos h]
      rw [e]
      have hcore := (core_clean_suffix n.natAbs (by omega)).1
      have e2 : str "Minus " ++ numberToWordsCore n.natAbs =
          str "Minus" ++ ' ' :: numberToWordsCore n.natAbs := by
        simp [str]
      rw [e2]
      exact cleanText_append_space _ _ (by decide) hcore
    · exact absurd h hn
    · have e : numberToWordsIndian n = numberToWordsCore n.toNat := by
        rw [numberToWordsIndian, if_neg hn, if_neg (by omega : ¬ n < 0)]
      rw [e]
      exact (core_clean_suffix n.toNat (by omega)).1
  exact ⟨h.1, h.2.1, h.2.2.1, h.2.2.2⟩

/-- Witness for C10 at the concrete input 1234567. -/
theorem words_well_spaced_witness :
    (1234567 : ℤ) ≠ 0 ∧
    (numberToWordsIndian 1234567 ≠ [] ∧
      jsWhitespace ((numberToWordsIndian 1234567).headD 'x') = false ∧
      jsWhitespace ((numberToWordsIndian 1234567).reverse.headD 'x') = false ∧
      NoDoubleSpace (numberToWordsIndian 1234567)) :=
  ⟨by decide, words_well_spaced 1234567 (by decide)⟩

end Loan
